import Mathlib

/-!
Shallow embedding of the Library-Management service (`src/main.go`): a REST
service over two MongoDB collections, `users` and `books`, with
register/login/get/delete user handlers, add/list book handlers, and the
lending operations `borrowBook` / `returnBook`.

Modelling choices, faithful to the Go source and the Mongo driver:
* A collection is a `List` of documents in insertion order.  `FindOne` with an
  `_id` filter returns the first matching document; `UpdateOne` updates the
  first matching document (and is a no-op when nothing matches); `DeleteOne`
  deletes the first matching document and reports the deleted count.
* `$push` appends to the end of the array; `$pull` removes every array element
  equal to the given value.
* `primitive.ObjectIDFromHex` succeeds exactly on strings of 24 hex digits;
  a parsed ObjectID is represented by its hex string.
* Setting `borrower_id` to nil and the field being absent are identified, as
  the Go driver's decode into `*primitive.ObjectID` identifies them.
* bcrypt hashing is an external effect: the hash produced for a password is
  passed as an argument; store writes are assumed to succeed, so the
  `InternalError` branches (and the best-effort compensation in `borrowBook`)
  are not exercised.
-/

namespace LibraryManagement

/-- A document identifier: the 24-hex-digit string form of a Mongo ObjectID. -/
abbrev Id := String

/-- Hex digits accepted by Go's `encoding/hex` decoder. -/
def isHexDigit (c : Char) : Bool :=
  (('0' ≤ c && c ≤ '9') || ('a' ≤ c && c ≤ 'f') || ('A' ≤ c && c ≤ 'F'))

/-- `primitive.ObjectIDFromHex` succeeds iff the string is 24 hex digits. -/
def isValidObjectID (s : String) : Bool :=
  s.length == 24 && s.toList.all isHexDigit

/-- `primitive.ObjectIDFromHex`: parse a hex identifier, `none` on failure. -/
def objectIDFromHex (s : String) : Option Id :=
  if isValidObjectID s then some s else none

/-- The `User` document (`src/main.go` lines 22-27). -/
structure User where
  id : Id
  username : String
  password : String
  books : List Id
  deriving Repr, DecidableEq

/-- The `Book` document (`src/main.go` lines 30-34); `borrowerID = none`
means the book is available. -/
structure Book where
  id : Id
  title : String
  borrowerID : Option Id
  deriving Repr, DecidableEq

/-- The database state: the `users` and `books` collections. -/
structure Store where
  users : List User
  books : List Book
  deriving Repr, DecidableEq

/-- HTTP status codes used by the handlers. -/
inductive Status where
  | ok
  | created
  | badRequest
  | unauthorized
  | notFound
  | internalError
  deriving Repr, DecidableEq

/-- Mongo `UpdateOne`: apply `f` to the first element satisfying `p`;
no-op when no element matches. -/
def updateFirst (p : α → Bool) (f : α → α) : List α → List α
  | [] => []
  | x :: xs => if p x then f x :: xs else x :: updateFirst p f xs

/-- Mongo `DeleteOne`: remove the first element satisfying `p`, returning
the deleted count together with the remaining list. -/
def deleteFirst (p : α → Bool) : List α → Nat × List α
  | [] => (0, [])
  | x :: xs =>
    if p x then (1, xs)
    else
      let r := deleteFirst p xs
      (r.1, x :: r.2)

/-- `registerUser` (`src/main.go` lines 93-133): reject when a user with the
username already exists (the `CountDocuments` check), otherwise insert a user
with the hashed password and an empty book list and return the new id.
`newId` is the store-generated `_id`; `hashed` is the bcrypt hash of
`password`. -/
def registerUser (s : Store) (username _password hashed : String) (newId : Id) :
    Status × Option Id × Store :=
  if s.users.any (fun u => u.username == username) then
    (.badRequest, none, s)
  else
    (.created, some newId,
      { s with users :=
          s.users ++ [{ id := newId, username := username, password := hashed, books := [] }] })

/-- `getUser` (`src/main.go` lines 166-183): parse the id, look the user up,
and return it with the password field cleared. -/
def getUser (s : Store) (idHex : String) : Status × Option User :=
  match objectIDFromHex idHex with
  | none => (.badRequest, none)
  | some objID =>
    match s.users.find? (fun u => u.id == objID) with
    | none => (.notFound, none)
    | some user => (.ok, some { user with password := "" })

/-- `deleteUser` (`src/main.go` lines 185-204): parse the id, `DeleteOne` on
the users collection, `NotFound` when the deleted count is zero. -/
def deleteUser (s : Store) (idHex : String) : Status × Store :=
  match objectIDFromHex idHex with
  | none => (.badRequest, s)
  | some objID =>
    let res := deleteFirst (fun u => u.id == objID) s.users
    if res.1 == 0 then (.notFound, { s with users := res.2 })
    else (.ok, { s with users := res.2 })

/-- `addBook` (`src/main.go` lines 207-231): insert a book with no borrower;
`newId` is the store-generated `_id`. -/
def addBook (s : Store) (title : String) (newId : Id) : Status × Option Id × Store :=
  (.created, some newId,
    { s with books := s.books ++ [{ id := newId, title := title, borrowerID := none }] })

/-- `listBooks` (`src/main.go` lines 233-249): return every book document. -/
def listBooks (s : Store) : Status × List Book :=
  (.ok, s.books)

/-- `borrowBook` (`src/main.go` lines 252-315): parse both ids, load the
user (`NotFound` if absent), reject when the user already holds 2 books,
load the book (`NotFound` if absent), reject when it already has a borrower,
then set the book's borrower and `$push` the book id onto the user's list. -/
def borrowBook (s : Store) (userIdHex bookIdHex : String) : Status × Store :=
  match objectIDFromHex userIdHex with
  | none => (.badRequest, s)
  | some userObjID =>
    match objectIDFromHex bookIdHex with
    | none => (.badRequest, s)
    | some bookObjID =>
      match s.users.find? (fun u => u.id == userObjID) with
      | none => (.notFound, s)
      | some user =>
        if user.books.length ≥ 2 then (.badRequest, s)
        else
          match s.books.find? (fun b => b.id == bookObjID) with
          | none => (.notFound, s)
          | some book =>
            if book.borrowerID.isSome then (.badRequest, s)
            else
              let s1 := { s with books :=
                (updateFirst (fun b => b.id == bookObjID)
                  (fun b => { b with borrowerID := some userObjID }) s.books) }
              let s2 := { s1 with users :=
                (updateFirst (fun u => u.id == userObjID)
                  (fun u => { u with books := u.books ++ [bookObjID] }) s1.users) }
              (.ok, s2)

/-- `returnBook` (`src/main.go` lines 317-369): parse both ids, load the book
(`NotFound` if absent), reject unless its borrower is exactly the requesting
user, then clear the borrower and `$pull` the book id from the user's list.
The user document itself is never looked up. -/
def returnBook (s : Store) (userIdHex bookIdHex : String) : Status × Store :=
  match objectIDFromHex userIdHex with
  | none => (.badRequest, s)
  | some userObjID =>
    match objectIDFromHex bookIdHex with
    | none => (.badRequest, s)
    | some bookObjID =>
      match s.books.find? (fun b => b.id == bookObjID) with
      | none => (.notFound, s)
      | some book =>
        match book.borrowerID with
        | none => (.badRequest, s)
        | some borrower =>
          if borrower == userObjID then
            let s1 := { s with books :=
              (updateFirst (fun b => b.id == bookObjID)
                (fun b => { b with borrowerID := none }) s.books) }
            let s2 := { s1 with users :=
              (updateFirst (fun u => u.id == userObjID)
                (fun u => { u with books := u.books.filter (fun x => !(x == bookObjID)) }) s1.users) }
            (.ok, s2)
          else (.badRequest, s)

/-! ### Helper lemmas about the Mongo-style list operations -/

theorem find?_eq_some_split {α : Type} (p : α → Bool) (l : List α) (a : α)
    (h : l.find? p = some a) :
    ∃ l₁ l₂, l = l₁ ++ a :: l₂ ∧ ∀ x ∈ l₁, p x = false := by
  induction l with
  | nil => simp [List.find?] at h
  | cons x xs ih =>
    by_cases hx : p x
    · rw [List.find?_cons_of_pos _ hx] at h
      injection h with h
      subst h
      exact ⟨[], xs, rfl, by simp⟩
    · rw [List.find?_cons_of_neg _ hx] at h
      obtain ⟨l₁, l₂, hl, h₁⟩ := ih h
      subst hl
      refine ⟨x :: l₁, l₂, rfl, ?_⟩
      intro y hy
      rcases List.mem_cons.mp hy with hy' | hy'
      · subst hy'; exact Bool.eq_false_iff.mpr hx
      · exact h₁ y hy'

theorem find?_append_cons {α : Type} (p : α → Bool) (l₁ l₂ : List α) (a : α)
    (h₁ : ∀ x ∈ l₁, p x = false) (ha : p a = true) :
    (l₁ ++ a :: l₂).find? p = some a := by
  induction l₁ with
  | nil => simpa using List.find?_cons_of_pos _ ha
  | cons x xs ih =>
    have hx : p x = false := h₁ x (List.mem_cons_self x xs)
    rw [List.cons_append, List.find?_cons_of_neg _ (by simp [hx])]
    exact ih fun y hy => h₁ y (List.mem_cons_of_mem x hy)

theorem updateFirst_append_cons {α : Type} (p : α → Bool) (f : α → α) (l₁ l₂ : List α)
    (a : α) (h₁ : ∀ x ∈ l₁, p x = false) (ha : p a = true) :
    updateFirst p f (l₁ ++ a :: l₂) = l₁ ++ f a :: l₂ := by
  induction l₁ with
  | nil => simp [updateFirst, ha]
  | cons x xs ih =>
    have hx : p x = false := h₁ x (List.mem_cons_self x xs)
    simp only [List.cons_append, updateFirst, hx, Bool.false_eq_true, if_false,
      List.append_eq]
    rw [ih fun y hy => h₁ y (List.mem_cons_of_mem x hy)]

theorem updateFirst_eq_self {α : Type} (p : α → Bool) (f : α → α) (l : List α)
    (h : ∀ x ∈ l, p x = false) : updateFirst p f l = l := by
  induction l with
  | nil => rfl
  | cons x xs ih =>
    have hx : p x = false := h x (List.mem_cons_self x xs)
    simp only [updateFirst, hx, Bool.false_eq_true, if_false]
    rw [ih fun y hy => h y (List.mem_cons_of_mem x hy)]

theorem deleteFirst_sublist {α : Type} (p : α → Bool) (l : List α) :
    (deleteFirst p l).2.Sublist l := by
  induction l with
  | nil => simp [deleteFirst]
  | cons x xs ih =>
    by_cases hx : p x
    · simp only [deleteFirst, hx, if_true]
      exact (List.sublist_cons_self x xs)
    · simp only [deleteFirst, hx, if_false]
      exact List.Sublist.cons₂ x ih

/-! ### Consistency invariants -/

/-- The cross-collection relationship invariant (spec §3): a book names a
user as its borrower iff that user's book list contains the book's id. -/
def Inv (s : Store) : Prop :=
  ∀ b ∈ s.books, ∀ u ∈ s.users, (b.borrowerID = some u.id ↔ b.id ∈ u.books)

/-- Store-generated `_id`s are unique within each collection. -/
def NodupIds (s : Store) : Prop :=
  (s.users.map User.id).Nodup ∧ (s.books.map Book.id).Nodup

/-- A consistent store: unique ids and the relationship invariant. -/
def Consistent (s : Store) : Prop := NodupIds s ∧ Inv s

/-- Freshness of a store-generated ObjectID: it differs from every id already
present anywhere in the store (Mongo ObjectIDs are never reused). -/
def FreshId (s : Store) (i : Id) : Prop :=
  (∀ u ∈ s.users, u.id ≠ i ∧ i ∉ u.books) ∧
  (∀ b ∈ s.books, b.id ≠ i ∧ b.borrowerID ≠ some i)

instance (s : Store) : Decidable (Inv s) := by unfold Inv; exact inferInstance

instance (s : Store) : Decidable (NodupIds s) := by unfold NodupIds; exact inferInstance

instance (s : Store) : Decidable (Consistent s) := by unfold Consistent; exact inferInstance

instance (s : Store) (i : Id) : Decidable (FreshId s i) := by
  unfold FreshId; exact inferInstance

/-- One state-changing request handled to completion.  The two insert
operations take the store-generated fresh `_id` as a parameter. -/
inductive Step : Store → Store → Prop where
  | registerStep (s : Store) (username password hashed : String) (newId : Id)
      (h : FreshId s newId) :
      Step s (registerUser s username password hashed newId).2.2
  | addBookStep (s : Store) (title : String) (newId : Id) (h : FreshId s newId) :
      Step s (addBook s title newId).2.2
  | deleteUserStep (s : Store) (idHex : String) :
      Step s (deleteUser s idHex).2
  | borrowStep (s : Store) (userIdHex bookIdHex : String) :
      Step s (borrowBook s userIdHex bookIdHex).2
  | returnStep (s : Store) (userIdHex bookIdHex : String) :
      Step s (returnBook s userIdHex bookIdHex).2

/-- States reachable by completing operations from a given store. -/
inductive Reachable : Store → Store → Prop where
  | refl (s : Store) : Reachable s s
  | step {s t u : Store} : Reachable s t → Step t u → Reachable s u

/-! ### C8: deleting a user never touches the books collection -/

/-- Helper: the books collection is untouched by `deleteUser` on every path. -/
theorem deleteUser_books_aux (s : Store) (idHex : String) :
    (deleteUser s idHex).2.books = s.books := by
  unfold deleteUser
  cases objectIDFromHex idHex with
  | none => rfl
  | some objID => dsimp only; split <;> rfl

/-- Helper: whatever `deleteUser` does to the users collection, the result is
a sublist of the original collection. -/
theorem deleteUser_users_sublist (s : Store) (idHex : String) :
    (deleteUser s idHex).2.users.Sublist s.users := by
  unfold deleteUser
  cases objectIDFromHex idHex with
  | none => exact List.Sublist.refl _
  | some objID => dsimp only; split <;> exact deleteFirst_sublist _ _

/-- C8: `deleteUser` removes only the user document and never modifies the
books collection — every book, its borrower field included, is unchanged, so
books held by the deleted user remain marked as borrowed. -/
theorem deleteUser_books_frame (s : Store) (idHex : String) :
    (deleteUser s idHex).2.books = s.books :=
  deleteUser_books_aux s idHex

/-! ### C9: getUser -/

/-- C9: `getUser` fails with BadRequest on an invalidly formatted identifier,
with NotFound when no user has that identifier, and otherwise returns the
user record with the password field cleared, so the password hash is never
serialized outward. -/
theorem getUser_spec (s : Store) (idHex : String) :
    (isValidObjectID idHex = false → getUser s idHex = (.badRequest, none)) ∧
    (isValidObjectID idHex = true → s.users.find? (fun u => u.id == idHex) = none →
      getUser s idHex = (.notFound, none)) ∧
    (∀ u, isValidObjectID idHex = true →
      s.users.find? (fun v => v.id == idHex) = some u →
      getUser s idHex = (.ok, some { u with password := "" })) := by
  refine ⟨?_, ?_, ?_⟩
  · intro h
    simp [getUser, objectIDFromHex, h]
  · intro h hf
    simp [getUser, objectIDFromHex, h, hf]
  · intro u h hf
    simp [getUser, objectIDFromHex, h, hf]

/-- Witness for C9: a malformed id, an absent id and a present id on a
concrete store. -/
theorem getUser_spec_witness :
    getUser (Store.mk [User.mk "aaaaaaaaaaaaaaaaaaaaaaaa" "alice" "h1" []] []) "zz" =
      (.badRequest, none) ∧
    getUser (Store.mk [User.mk "aaaaaaaaaaaaaaaaaaaaaaaa" "alice" "h1" []] [])
      "bbbbbbbbbbbbbbbbbbbbbbbb" = (.notFound, none) ∧
    getUser (Store.mk [User.mk "aaaaaaaaaaaaaaaaaaaaaaaa" "alice" "h1" []] [])
      "aaaaaaaaaaaaaaaaaaaaaaaa" =
      (.ok, some (User.mk "aaaaaaaaaaaaaaaaaaaaaaaa" "alice" "" [])) :=
  ⟨(getUser_spec _ "zz").1 (by decide),
   (getUser_spec _ _).2.1 (by decide) (by decide),
   (getUser_spec _ _).2.2 (User.mk "aaaaaaaaaaaaaaaaaaaaaaaa" "alice" "h1" [])
     (by decide) (by decide)⟩

/-! ### C1 and C4: the borrow rejection paths -/

/-- Helper: the lending-limit check fires before the book lookup, for every
book id string whatsoever. -/
theorem borrowBook_limit_aux (s : Store) (userIdHex bookIdHex : String) (user : User)
    (huh : isValidObjectID userIdHex = true)
    (hu : s.users.find? (fun u => u.id == userIdHex) = some user)
    (hlen : 2 ≤ user.books.length) :
    borrowBook s userIdHex bookIdHex = (.badRequest, s) := by
  cases hbv : isValidObjectID bookIdHex with
  | false => simp [borrowBook, objectIDFromHex, huh, hbv]
  | true => simp [borrowBook, objectIDFromHex, huh, hbv, hu, ge_iff_le, hlen]

/-- C1: a user whose book list already has length 2 or more gets BadRequest
from borrow for every requested book id — even a malformed or a nonexistent
one, since the limit check precedes the book lookup — and the store is
returned unchanged. -/
theorem borrow_limit (s : Store) (userIdHex bookIdHex : String) (user : User)
    (huh : isValidObjectID userIdHex = true)
    (hu : s.users.find? (fun u => u.id == userIdHex) = some user)
    (hlen : 2 ≤ user.books.length) :
    borrowBook s userIdHex bookIdHex = (.badRequest, s) :=
  borrowBook_limit_aux s userIdHex bookIdHex user huh hu hlen

/-- Witness for C1: a user holding 2 books, asking for a book id that exists
nowhere in the store. -/
theorem borrow_limit_witness :
    borrowBook
      (Store.mk [User.mk "aaaaaaaaaaaaaaaaaaaaaaaa" "alice" "h1"
        ["cccccccccccccccccccccccc", "dddddddddddddddddddddddd"]] [])
      "aaaaaaaaaaaaaaaaaaaaaaaa" "eeeeeeeeeeeeeeeeeeeeeeee" =
      (.badRequest,
        Store.mk [User.mk "aaaaaaaaaaaaaaaaaaaaaaaa" "alice" "h1"
          ["cccccccccccccccccccccccc", "dddddddddddddddddddddddd"]] []) :=
  borrow_limit _ _ _
    (User.mk "aaaaaaaaaaaaaaaaaaaaaaaa" "alice" "h1"
      ["cccccccccccccccccccccccc", "dddddddddddddddddddddddd"])
    (by decide) (by decide) (by decide)

/-- C4: a book whose borrower field is present cannot be borrowed: a request
by any existing user — the current borrower included — fails with BadRequest
(either at the limit check or at the already-borrowed check) and leaves both
collections unchanged. -/
theorem borrow_already_borrowed (s : Store) (userIdHex bookIdHex : String)
    (user : User) (book : Book) (w : Id)
    (huh : isValidObjectID userIdHex = true)
    (hbh : isValidObjectID bookIdHex = true)
    (hu : s.users.find? (fun u => u.id == userIdHex) = some user)
    (hb : s.books.find? (fun b => b.id == bookIdHex) = some book)
    (hbor : book.borrowerID = some w) :
    borrowBook s userIdHex bookIdHex = (.badRequest, s) := by
  by_cases hlen : 2 ≤ user.books.length
  · exact borrowBook_limit_aux s userIdHex bookIdHex user huh hu hlen
  · simp [borrowBook, objectIDFromHex, huh, hbh, hu, hb, ge_iff_le, hlen, hbor]

/-- Witness for C4: the current borrower themself asks to borrow the book a
second time. -/
theorem borrow_already_borrowed_witness :
    borrowBook
      (Store.mk [User.mk "aaaaaaaaaaaaaaaaaaaaaaaa" "alice" "h1" ["bbbbbbbbbbbbbbbbbbbbbbbb"]]
        [Book.mk "bbbbbbbbbbbbbbbbbbbbbbbb" "Dune" (some "aaaaaaaaaaaaaaaaaaaaaaaa")])
      "aaaaaaaaaaaaaaaaaaaaaaaa" "bbbbbbbbbbbbbbbbbbbbbbbb" =
      (.badRequest,
        Store.mk [User.mk "aaaaaaaaaaaaaaaaaaaaaaaa" "alice" "h1" ["bbbbbbbbbbbbbbbbbbbbbbbb"]]
          [Book.mk "bbbbbbbbbbbbbbbbbbbbbbbb" "Dune" (some "aaaaaaaaaaaaaaaaaaaaaaaa")]) :=
  borrow_already_borrowed _ _ _
    (User.mk "aaaaaaaaaaaaaaaaaaaaaaaa" "alice" "h1" ["bbbbbbbbbbbbbbbbbbbbbbbb"])
    (Book.mk "bbbbbbbbbbbbbbbbbbbbbbbb" "Dune" (some "aaaaaaaaaaaaaaaaaaaaaaaa"))
    "aaaaaaaaaaaaaaaaaaaaaaaa"
    (by decide) (by decide) (by decide) (by decide) (by decide)

/-! ### C5: the return rejection path -/

/-- C5: return is rejected with BadRequest whenever the book's current
borrower is not exactly the requesting user's identifier — in particular when
the book is available (borrower absent) — and no state is mutated. -/
theorem return_not_owner (s : Store) (userIdHex bookIdHex : String) (book : Book)
    (huh : isValidObjectID userIdHex = true)
    (hbh : isValidObjectID bookIdHex = true)
    (hb : s.books.find? (fun b => b.id == bookIdHex) = some book)
    (hbor : book.borrowerID ≠ some userIdHex) :
    returnBook s userIdHex bookIdHex = (.badRequest, s) := by
  cases hbid : book.borrowerID with
  | none => simp [returnBook, objectIDFromHex, huh, hbh, hb, hbid]
  | some w =>
    have hw : (w == userIdHex) = false := by
      apply Bool.eq_false_iff.mpr
      intro hcontra
      exact hbor (by rw [hbid, beq_iff_eq.mp hcontra])
    simp [returnBook, objectIDFromHex, huh, hbh, hb, hbid, hw]

/-- Witness for C5: returning a book that is currently available. -/
theorem return_not_owner_witness :
    returnBook
      (Store.mk [User.mk "aaaaaaaaaaaaaaaaaaaaaaaa" "alice" "h1" []]
        [Book.mk "bbbbbbbbbbbbbbbbbbbbbbbb" "Dune" none])
      "aaaaaaaaaaaaaaaaaaaaaaaa" "bbbbbbbbbbbbbbbbbbbbbbbb" =
      (.badRequest,
        Store.mk [User.mk "aaaaaaaaaaaaaaaaaaaaaaaa" "alice" "h1" []]
          [Book.mk "bbbbbbbbbbbbbbbbbbbbbbbb" "Dune" none]) :=
  return_not_owner _ _ _ (Book.mk "bbbbbbbbbbbbbbbbbbbbbbbb" "Dune" none)
    (by decide) (by decide) (by decide) (by decide)

/-! ### C10: return does not verify that the user exists -/

/-- C10: `returnBook` never looks the user up: when the book's borrower field
equals the requesting identifier but no user document has that identifier,
the call succeeds with OK, the book's borrower is cleared, and the users
collection is untouched (the `$pull` update matches zero documents). -/
theorem return_without_user (s : Store) (userIdHex bookIdHex : String) (book : Book)
    (huh : isValidObjectID userIdHex = true)
    (hbh : isValidObjectID bookIdHex = true)
    (hb : s.books.find? (fun b => b.id == bookIdHex) = some book)
    (hbor : book.borrowerID = some userIdHex)
    (hnouser : s.users.find? (fun u => u.id == userIdHex) = none) :
    (returnBook s userIdHex bookIdHex).1 = .ok ∧
    (returnBook s userIdHex bookIdHex).2.users = s.users ∧
    (returnBook s userIdHex bookIdHex).2.books.find? (fun b => b.id == bookIdHex) =
      some { book with borrowerID := none } := by
  have hRB : returnBook s userIdHex bookIdHex =
      (.ok,
        { users := (updateFirst (fun u => u.id == userIdHex)
            (fun u => { u with books := u.books.filter (fun x => !(x == bookIdHex)) })
            s.users),
          books := (updateFirst (fun b => b.id == bookIdHex)
            (fun b => { b with borrowerID := none }) s.books) }) := by
    simp [returnBook, objectIDFromHex, huh, hbh, hb, hbor]
  rw [hRB]
  refine ⟨rfl, ?_, ?_⟩
  · apply updateFirst_eq_self
    intro u hu
    have := List.find?_eq_none.mp hnouser u hu
    simpa using this
  · obtain ⟨l₁, l₂, hsplit, h₁⟩ := find?_eq_some_split _ _ _ hb
    have hpb := List.find?_some hb
    rw [hsplit, updateFirst_append_cons _ _ _ _ _ h₁ hpb]
    exact find?_append_cons _ _ _ _ h₁ (by simpa using hpb)

/-- Witness for C10: the borrower on record does not exist as a user (the
users collection is empty), yet the return succeeds and clears the book. -/
theorem return_without_user_witness :
    (returnBook
      (Store.mk [] [Book.mk "bbbbbbbbbbbbbbbbbbbbbbbb" "Dune" (some "aaaaaaaaaaaaaaaaaaaaaaaa")])
      "aaaaaaaaaaaaaaaaaaaaaaaa" "bbbbbbbbbbbbbbbbbbbbbbbb").1 = .ok ∧
    (returnBook
      (Store.mk [] [Book.mk "bbbbbbbbbbbbbbbbbbbbbbbb" "Dune" (some "aaaaaaaaaaaaaaaaaaaaaaaa")])
      "aaaaaaaaaaaaaaaaaaaaaaaa" "bbbbbbbbbbbbbbbbbbbbbbbb").2.users = [] ∧
    (returnBook
      (Store.mk [] [Book.mk "bbbbbbbbbbbbbbbbbbbbbbbb" "Dune" (some "aaaaaaaaaaaaaaaaaaaaaaaa")])
      "aaaaaaaaaaaaaaaaaaaaaaaa" "bbbbbbbbbbbbbbbbbbbbbbbb").2.books.find?
        (fun b => b.id == "bbbbbbbbbbbbbbbbbbbbbbbb") =
      some (Book.mk "bbbbbbbbbbbbbbbbbbbbbbbb" "Dune" none) :=
  return_without_user _ _ _
    (Book.mk "bbbbbbbbbbbbbbbbbbbbbbbb" "Dune" (some "aaaaaaaaaaaaaaaaaaaaaaaa"))
    (by decide) (by decide) (by decide) (by decide) (by decide)

/-! ### Outcome characterizations of borrow and return -/

/-- Every run of `borrowBook` either fails leaving the store unchanged, or
succeeds having found an under-limit user and an unborrowed book, setting the
book's borrower and appending the book id to the user's list. -/
theorem borrowBook_shape (s : Store) (uh bh : String) :
    ((borrowBook s uh bh).1 ≠ .ok ∧ (borrowBook s uh bh).2 = s) ∨
    ((borrowBook s uh bh).1 = .ok ∧
      ∃ user book,
        isValidObjectID uh = true ∧ isValidObjectID bh = true ∧
        s.users.find? (fun u => u.id == uh) = some user ∧
        s.books.find? (fun b => b.id == bh) = some book ∧
        user.books.length < 2 ∧ book.borrowerID = none ∧
        (borrowBook s uh bh).2 =
          Store.mk
            (updateFirst (fun u => u.id == uh)
              (fun u => { u with books := u.books ++ [bh] }) s.users)
            (updateFirst (fun b => b.id == bh)
              (fun b => { b with borrowerID := some uh }) s.books)) := by
  cases hvu : isValidObjectID uh with
  | false => left; constructor <;> simp [borrowBook, objectIDFromHex, hvu]
  | true =>
    cases hvb : isValidObjectID bh with
    | false => left; constructor <;> simp [borrowBook, objectIDFromHex, hvu, hvb]
    | true =>
      cases hu : s.users.find? (fun u => u.id == uh) with
      | none => left; constructor <;> simp [borrowBook, objectIDFromHex, hvu, hvb, hu]
      | some user =>
        by_cases hlen : 2 ≤ user.books.length
        · left; constructor <;>
            simp [borrowBook, objectIDFromHex, hvu, hvb, hu, ge_iff_le, hlen]
        · cases hb : s.books.find? (fun b => b.id == bh) with
          | none =>
            left; constructor <;>
              simp [borrowBook, objectIDFromHex, hvu, hvb, hu, ge_iff_le, hlen, hb]
          | some book =>
            cases hbor : book.borrowerID with
            | some w =>
              left; constructor <;>
                simp [borrowBook, objectIDFromHex, hvu, hvb, hu, ge_iff_le, hlen, hb, hbor]
            | none =>
              right
              have heq : borrowBook s uh bh =
                  (.ok, Store.mk
                    (updateFirst (fun u => u.id == uh)
                      (fun u => { u with books := u.books ++ [bh] }) s.users)
                    (updateFirst (fun b => b.id == bh)
                      (fun b => { b with borrowerID := some uh }) s.books)) := by
                simp [borrowBook, objectIDFromHex, hvu, hvb, hu, ge_iff_le, hlen, hb, hbor]
              rw [heq]
              exact ⟨rfl, user, book, rfl, rfl, rfl, rfl, Nat.lt_of_not_le hlen, hbor, rfl⟩

/-- Every run of `returnBook` either fails leaving the store unchanged, or
succeeds having found a book whose borrower is exactly the requester,
clearing the borrower and pulling the book id from the user's list. -/
theorem returnBook_shape (s : Store) (uh bh : String) :
    ((returnBook s uh bh).1 ≠ .ok ∧ (returnBook s uh bh).2 = s) ∨
    ((returnBook s uh bh).1 = .ok ∧
      ∃ book,
        isValidObjectID uh = true ∧ isValidObjectID bh = true ∧
        s.books.find? (fun b => b.id == bh) = some book ∧
        book.borrowerID = some uh ∧
        (returnBook s uh bh).2 =
          Store.mk
            (updateFirst (fun u => u.id == uh)
              (fun u => { u with books := u.books.filter (fun x => !(x == bh)) }) s.users)
            (updateFirst (fun b => b.id == bh)
              (fun b => { b with borrowerID := none }) s.books)) := by
  cases hvu : isValidObjectID uh with
  | false => left; constructor <;> simp [returnBook, objectIDFromHex, hvu]
  | true =>
    cases hvb : isValidObjectID bh with
    | false => left; constructor <;> simp [returnBook, objectIDFromHex, hvu, hvb]
    | true =>
      cases hb : s.books.find? (fun b => b.id == bh) with
      | none => left; constructor <;> simp [returnBook, objectIDFromHex, hvu, hvb, hb]
      | some book =>
        cases hbor : book.borrowerID with
        | none =>
          left; constructor <;> simp [returnBook, objectIDFromHex, hvu, hvb, hb, hbor]
        | some w =>
          by_cases hw : w = uh
          · right
            have hwt : (w == uh) = true := by simp [hw]
            have heq : returnBook s uh bh =
                (.ok, Store.mk
                  (updateFirst (fun u => u.id == uh)
                    (fun u => { u with books := u.books.filter (fun x => !(x == bh)) }) s.users)
                  (updateFirst (fun b => b.id == bh)
                    (fun b => { b with borrowerID := none }) s.books)) := by
              simp [returnBook, objectIDFromHex, hvu, hvb, hb, hbor, hwt]
            rw [heq]
            exact ⟨rfl, book, rfl, rfl, rfl, by rw [hbor, hw], rfl⟩
          · have hwf : (w == uh) = false := by
              apply Bool.eq_false_iff.mpr
              intro hc
              exact hw (beq_iff_eq.mp hc)
            left; constructor <;>
              simp [returnBook, objectIDFromHex, hvu, hvb, hb, hbor, hwf]

/-- Membership after `updateFirst`: an element of the updated list is either
an element of the original list or the image of one. -/
theorem mem_updateFirst {α : Type} (p : α → Bool) (f : α → α) (l : List α) (x : α)
    (hx : x ∈ updateFirst p f l) : x ∈ l ∨ ∃ a ∈ l, x = f a := by
  induction l with
  | nil => simp [updateFirst] at hx
  | cons y ys ih =>
    by_cases hy : p y
    · simp only [updateFirst, hy, if_true] at hx
      rcases List.mem_cons.mp hx with hx' | hx'
      · exact Or.inr ⟨y, List.mem_cons_self y ys, hx'⟩
      · exact Or.inl (List.mem_cons_of_mem y hx')
    · simp only [updateFirst, hy, if_false] at hx
      rcases List.mem_cons.mp hx with hx' | hx'
      · exact Or.inl (hx' ▸ List.mem_cons_self y ys)
      · rcases ih hx' with h | ⟨a, ha, hfa⟩
        · exact Or.inl (List.mem_cons_of_mem y h)
        · exact Or.inr ⟨a, List.mem_cons_of_mem y ha, hfa⟩

/-- In a list whose image under `g` has no duplicates, every element of the
suffix after `a` maps to something different from `g a`. -/
theorem nodup_split_ne {α β : Type} (g : α → β) (l₁ l₂ : List α) (a : α)
    (h : ((l₁ ++ a :: l₂).map g).Nodup) : ∀ x ∈ l₂, g x ≠ g a := by
  intro x hx he
  rw [List.map_append, List.nodup_append] at h
  have h2 := h.2.1
  rw [List.map_cons, List.nodup_cons] at h2
  exact h2.1 (he ▸ List.mem_map_of_mem g hx)

/-! ### C7: register -/

/-- C7: register fails with the 400 Conflict-class error when the username is
taken and otherwise inserts a user with an empty book list and returns the
new identifier; hence registering the same username twice in sequence gives
exactly one success and one Conflict-class failure. -/
theorem register_spec (s : Store) (username pw1 pw2 hashed1 hashed2 : String)
    (id1 id2 : Id) :
    ((∃ u ∈ s.users, u.username = username) →
      registerUser s username pw1 hashed1 id1 = (.badRequest, none, s)) ∧
    ((∀ u ∈ s.users, u.username ≠ username) →
      registerUser s username pw1 hashed1 id1 =
        (.created, some id1,
          Store.mk (s.users ++ [User.mk id1 username hashed1 []]) s.books) ∧
      registerUser (Store.mk (s.users ++ [User.mk id1 username hashed1 []]) s.books)
          username pw2 hashed2 id2 =
        (.badRequest, none,
          Store.mk (s.users ++ [User.mk id1 username hashed1 []]) s.books)) := by
  constructor
  · rintro ⟨u, hu, hname⟩
    have hc : s.users.any (fun v => v.username == username) = true :=
      List.any_eq_true.mpr ⟨u, hu, by simp [hname]⟩
    simp [registerUser, hc]
  · intro h
    have hno : ¬ s.users.any (fun v => v.username == username) = true := by
      intro hc
      obtain ⟨u, hu, hueq⟩ := List.any_eq_true.mp hc
      exact h u hu (beq_iff_eq.mp hueq)
    constructor
    · simp [registerUser, hno]
    · have hc : (s.users ++ [User.mk id1 username hashed1 []]).any
          (fun v => v.username == username) = true :=
        List.any_eq_true.mpr ⟨User.mk id1 username hashed1 [], by simp, by simp⟩
      simp [registerUser, hc]

/-- Witness for C7: registering a taken username fails; registering a fresh
one succeeds and the immediate repeat fails. -/
theorem register_spec_witness :
    registerUser (Store.mk [User.mk "aaaaaaaaaaaaaaaaaaaaaaaa" "alice" "h0" []] [])
      "alice" "pw1" "h1" "cccccccccccccccccccccccc" =
      (.badRequest, none,
        Store.mk [User.mk "aaaaaaaaaaaaaaaaaaaaaaaa" "alice" "h0" []] []) ∧
    (registerUser (Store.mk [] []) "alice" "pw1" "h1" "cccccccccccccccccccccccc" =
      (.created, some "cccccccccccccccccccccccc",
        Store.mk [User.mk "cccccccccccccccccccccccc" "alice" "h1" []] []) ∧
     registerUser (Store.mk [User.mk "cccccccccccccccccccccccc" "alice" "h1" []] [])
        "alice" "pw2" "h2" "dddddddddddddddddddddddd" =
      (.badRequest, none,
        Store.mk [User.mk "cccccccccccccccccccccccc" "alice" "h1" []] [])) :=
  ⟨(register_spec (Store.mk [User.mk "aaaaaaaaaaaaaaaaaaaaaaaa" "alice" "h0" []] [])
      "alice" "pw1" "pw2" "h1" "h2" "cccccccccccccccccccccccc"
      "dddddddddddddddddddddddd").1 ⟨User.mk "aaaaaaaaaaaaaaaaaaaaaaaa" "alice" "h0" [],
        by decide, rfl⟩,
   (register_spec (Store.mk [] []) "alice" "pw1" "pw2" "h1" "h2"
      "cccccccccccccccccccccccc" "dddddddddddddddddddddddd").2 (by decide)⟩

/-! ### Preservation of consistency by each operation -/

theorem consistent_register (s : Store) (username pw hashed : String) (newId : Id)
    (hs : Consistent s) (hfresh : FreshId s newId) :
    Consistent (registerUser s username pw hashed newId).2.2 := by
  by_cases hc : s.users.any (fun v => v.username == username) = true
  · simpa [registerUser, hc] using hs
  · have heq : (registerUser s username pw hashed newId).2.2 =
        Store.mk (s.users ++ [User.mk newId username hashed []]) s.books := by
      simp [registerUser, hc]
    rw [heq]
    refine ⟨⟨?_, hs.1.2⟩, ?_⟩
    · rw [List.map_append, List.nodup_append]
      refine ⟨hs.1.1, by simp, ?_⟩
      intro a ha hb
      simp only [List.map_cons, List.map_nil, List.mem_singleton] at hb
      subst hb
      obtain ⟨u, hu, hui⟩ := List.mem_map.mp ha
      exact (hfresh.1 u hu).1 hui
    · intro b hb u hu
      rcases List.mem_append.mp hu with hu' | hu'
      · exact hs.2 b hb u hu'
      · have hueq : u = User.mk newId username hashed [] := by simpa using hu'
        subst hueq
        simp [(hfresh.2 b hb).2]

theorem consistent_addBook (s : Store) (title : String) (newId : Id)
    (hs : Consistent s) (hfresh : FreshId s newId) :
    Consistent (addBook s title newId).2.2 := by
  have heq : (addBook s title newId).2.2 =
      Store.mk s.users (s.books ++ [Book.mk newId title none]) := rfl
  rw [heq]
  refine ⟨⟨hs.1.1, ?_⟩, ?_⟩
  · rw [List.map_append, List.nodup_append]
    refine ⟨hs.1.2, by simp, ?_⟩
    intro a ha hb
    simp only [List.map_cons, List.map_nil, List.mem_singleton] at hb
    subst hb
    obtain ⟨b, hbmem, hbi⟩ := List.mem_map.mp ha
    exact (hfresh.2 b hbmem).1 hbi
  · intro b hb u hu
    rcases List.mem_append.mp hb with hb' | hb'
    · exact hs.2 b hb' u hu
    · have hbeq : b = Book.mk newId title none := by simpa using hb'
      subst hbeq
      simp [(hfresh.1 u hu).2]

theorem consistent_deleteUser (s : Store) (idHex : String) (hs : Consistent s) :
    Consistent (deleteUser s idHex).2 := by
  have hsub := deleteUser_users_sublist s idHex
  have hbooks := deleteUser_books_aux s idHex
  refine ⟨⟨?_, ?_⟩, ?_⟩
  · exact List.Nodup.sublist (List.Sublist.map User.id hsub) hs.1.1
  · rw [hbooks]; exact hs.1.2
  · intro b hb u hu
    rw [hbooks] at hb
    exact hs.2 b hb u (hsub.subset hu)

theorem consistent_borrow (s : Store) (uh bh : String) (hs : Consistent s) :
    Consistent (borrowBook s uh bh).2 := by
  rcases borrowBook_shape s uh bh with ⟨-, heq⟩ |
    ⟨-, user, book, hvu, hvb, hu, hb, hlen, hbor, heq⟩
  · rwa [heq]
  · rw [heq]
    obtain ⟨U₁, U₂, hUs, hU₁⟩ := find?_eq_some_split _ _ _ hu
    obtain ⟨B₁, B₂, hBs, hB₁⟩ := find?_eq_some_split _ _ _ hb
    have hpu := List.find?_some hu
    have hpb := List.find?_some hb
    have huid : user.id = uh := beq_iff_eq.mp hpu
    have hbid : book.id = bh := beq_iff_eq.mp hpb
    have hUnodup : ((U₁ ++ user :: U₂).map User.id).Nodup := by
      rw [← hUs]; exact hs.1.1
    have hBnodup : ((B₁ ++ book :: B₂).map Book.id).Nodup := by
      rw [← hBs]; exact hs.1.2
    have hU₁ne : ∀ x ∈ U₁, x.id ≠ uh := fun x hx => ne_of_beq_false (hU₁ x hx)
    have hU₂ne : ∀ x ∈ U₂, x.id ≠ uh := fun x hx he =>
      nodup_split_ne User.id U₁ U₂ user hUnodup x hx (he.trans huid.symm)
    have hB₁ne : ∀ x ∈ B₁, x.id ≠ bh := fun x hx => ne_of_beq_false (hB₁ x hx)
    have hB₂ne : ∀ x ∈ B₂, x.id ≠ bh := fun x hx he =>
      nodup_split_ne Book.id B₁ B₂ book hBnodup x hx (he.trans hbid.symm)
    have hmemU : ∀ x, (x ∈ U₁ ∨ x = user ∨ x ∈ U₂) → x ∈ s.users := by
      intro x hx
      rw [hUs]
      rcases hx with h | h | h
      · exact List.mem_append.mpr (Or.inl h)
      · exact List.mem_append.mpr (Or.inr (h ▸ List.mem_cons_self _ _))
      · exact List.mem_append.mpr (Or.inr (List.mem_cons_of_mem _ h))
    have hmemB : ∀ x, (x ∈ B₁ ∨ x = book ∨ x ∈ B₂) → x ∈ s.books := by
      intro x hx
      rw [hBs]
      rcases hx with h | h | h
      · exact List.mem_append.mpr (Or.inl h)
      · exact List.mem_append.mpr (Or.inr (h ▸ List.mem_cons_self _ _))
      · exact List.mem_append.mpr (Or.inr (List.mem_cons_of_mem _ h))
    have hUup : updateFirst (fun u => u.id == uh)
        (fun u => { u with books := u.books ++ [bh] }) s.users =
        U₁ ++ { user with books := user.books ++ [bh] } :: U₂ := by
      rw [hUs]
      exact updateFirst_append_cons _ _ _ _ _ hU₁ hpu
    have hBup : updateFirst (fun b => b.id == bh)
        (fun b => { b with borrowerID := some uh }) s.books =
        B₁ ++ { book with borrowerID := some uh } :: B₂ := by
      rw [hBs]
      exact updateFirst_append_cons _ _ _ _ _ hB₁ hpb
    rw [hUup, hBup]
    refine ⟨⟨?_, ?_⟩, ?_⟩
    · have hmap : (U₁ ++ { user with books := user.books ++ [bh] } :: U₂).map User.id =
          (U₁ ++ user :: U₂).map User.id := by simp
      rw [hmap]; exact hUnodup
    · have hmap : (B₁ ++ { book with borrowerID := some uh } :: B₂).map Book.id =
          (B₁ ++ book :: B₂).map Book.id := by simp
      rw [hmap]; exact hBnodup
    · intro b hbm u hum
      have hbcases : b ∈ B₁ ∨ b = { book with borrowerID := some uh } ∨ b ∈ B₂ := by
        rcases List.mem_append.mp hbm with h | h
        · exact Or.inl h
        · rcases List.mem_cons.mp h with h | h
          · exact Or.inr (Or.inl h)
          · exact Or.inr (Or.inr h)
      have hucases : u ∈ U₁ ∨ u = { user with books := user.books ++ [bh] } ∨ u ∈ U₂ := by
        rcases List.mem_append.mp hum with h | h
        · exact Or.inl h
        · rcases List.mem_cons.mp h with h | h
          · exact Or.inr (Or.inl h)
          · exact Or.inr (Or.inr h)
      have oldU : ∀ v ∈ s.users, v.id ≠ uh →
          ∀ b', (b' ∈ B₁ ∨ b' = { book with borrowerID := some uh } ∨ b' ∈ B₂) →
          (b'.borrowerID = some v.id ↔ b'.id ∈ v.books) := by
        intro v hv hvne b' hb'
        rcases hb' with h | rfl | h
        · exact hs.2 b' (hmemB b' (Or.inl h)) v hv
        · show some uh = some v.id ↔ book.id ∈ v.books
          have horig := hs.2 book (hmemB book (Or.inr (Or.inl rfl))) v hv
          rw [hbor] at horig
          constructor
          · intro hcon
            exact absurd (Option.some.inj hcon).symm hvne
          · intro hcon
            have h2 := horig.mpr hcon
            exact absurd h2 (by simp)
        · exact hs.2 b' (hmemB b' (Or.inr (Or.inr h))) v hv
      rcases hucases with hu' | rfl | hu'
      · exact oldU u (hmemU u (Or.inl hu')) (hU₁ne u hu') b hbcases
      · have husr : user ∈ s.users := hmemU user (Or.inr (Or.inl rfl))
        rcases hbcases with hbo | rfl | hbo
        · show b.borrowerID = some user.id ↔ b.id ∈ user.books ++ [bh]
          have horig := hs.2 b (hmemB b (Or.inl hbo)) user husr
          rw [List.mem_append, List.mem_singleton]
          constructor
          · intro h; exact Or.inl (horig.mp h)
          · rintro (h | h)
            · exact horig.mpr h
            · exact absurd h (hB₁ne b hbo)
        · show some uh = some user.id ↔ book.id ∈ user.books ++ [bh]
          constructor
          · intro h
            rw [List.mem_append, List.mem_singleton]
            exact Or.inr hbid
          · intro h
            rw [huid]
        · show b.borrowerID = some user.id ↔ b.id ∈ user.books ++ [bh]
          have horig := hs.2 b (hmemB b (Or.inr (Or.inr hbo))) user husr
          rw [List.mem_append, List.mem_singleton]
          constructor
          · intro h; exact Or.inl (horig.mp h)
          · rintro (h | h)
            · exact horig.mpr h
            · exact absurd h (hB₂ne b hbo)
      · exact oldU u (hmemU u (Or.inr (Or.inr hu'))) (hU₂ne u hu') b hbcases

theorem consistent_return (s : Store) (uh bh : String) (hs : Consistent s) :
    Consistent (returnBook s uh bh).2 := by
  rcases returnBook_shape s uh bh with ⟨-, heq⟩ | ⟨-, book, hvu, hvb, hb, hbor, heq⟩
  · rwa [heq]
  · rw [heq]
    obtain ⟨B₁, B₂, hBs, hB₁⟩ := find?_eq_some_split _ _ _ hb
    have hpb := List.find?_some hb
    have hbid : book.id = bh := beq_iff_eq.mp hpb
    have hBnodup : ((B₁ ++ book :: B₂).map Book.id).Nodup := by
      rw [← hBs]; exact hs.1.2
    have hB₁ne : ∀ x ∈ B₁, x.id ≠ bh := fun x hx => ne_of_beq_false (hB₁ x hx)
    have hB₂ne : ∀ x ∈ B₂, x.id ≠ bh := fun x hx he =>
      nodup_split_ne Book.id B₁ B₂ book hBnodup x hx (he.trans hbid.symm)
    have hmemB : ∀ x, (x ∈ B₁ ∨ x = book ∨ x ∈ B₂) → x ∈ s.books := by
      intro x hx
      rw [hBs]
      rcases hx with h | h | h
      · exact List.mem_append.mpr (Or.inl h)
      · exact List.mem_append.mpr (Or.inr (h ▸ List.mem_cons_self _ _))
      · exact List.mem_append.mpr (Or.inr (List.mem_cons_of_mem _ h))
    have hBup : updateFirst (fun b => b.id == bh)
        (fun b => { b with borrowerID := none }) s.books =
        B₁ ++ { book with borrowerID := none } :: B₂ := by
      rw [hBs]
      exact updateFirst_append_cons _ _ _ _ _ hB₁ hpb
    rw [hBup]
    have hmapB : (B₁ ++ { book with borrowerID := none } :: B₂).map Book.id =
        (B₁ ++ book :: B₂).map Book.id := by simp
    cases hufind : s.users.find? (fun u => u.id == uh) with
    | none =>
      have hUup : updateFirst (fun u => u.id == uh)
          (fun u => { u with books := u.books.filter (fun x => !(x == bh)) }) s.users =
          s.users := by
        apply updateFirst_eq_self
        intro x hx
        have h := List.find?_eq_none.mp hufind x hx
        simpa using h
      rw [hUup]
      refine ⟨⟨hs.1.1, ?_⟩, ?_⟩
      · rw [hmapB]; exact hBnodup
      · intro b hbm u hum
        have hune : u.id ≠ uh := by
          have h := List.find?_eq_none.mp hufind u hum
          simpa using h
        have hbcases : b ∈ B₁ ∨ b = { book with borrowerID := none } ∨ b ∈ B₂ := by
          rcases List.mem_append.mp hbm with h | h
          · exact Or.inl h
          · rcases List.mem_cons.mp h with h | h
            · exact Or.inr (Or.inl h)
            · exact Or.inr (Or.inr h)
        rcases hbcases with hbo | rfl | hbo
        · exact hs.2 b (hmemB b (Or.inl hbo)) u hum
        · show (none : Option Id) = some u.id ↔ book.id ∈ u.books
          have horig := hs.2 book (hmemB book (Or.inr (Or.inl rfl))) u hum
          rw [hbor] at horig
          constructor
          · intro hcon; exact absurd hcon (by simp)
          · intro hcon
            exact absurd (Option.some.inj (horig.mpr hcon)).symm hune
        · exact hs.2 b (hmemB b (Or.inr (Or.inr hbo))) u hum
    | some u0 =>
      obtain ⟨U₁, U₂, hUs, hU₁⟩ := find?_eq_some_split _ _ _ hufind
      have hpu := List.find?_some hufind
      have huid : u0.id = uh := beq_iff_eq.mp hpu
      have hUnodup : ((U₁ ++ u0 :: U₂).map User.id).Nodup := by
        rw [← hUs]; exact hs.1.1
      have hU₁ne : ∀ x ∈ U₁, x.id ≠ uh := fun x hx => ne_of_beq_false (hU₁ x hx)
      have hU₂ne : ∀ x ∈ U₂, x.id ≠ uh := fun x hx he =>
        nodup_split_ne User.id U₁ U₂ u0 hUnodup x hx (he.trans huid.symm)
      have hmemU : ∀ x, (x ∈ U₁ ∨ x = u0 ∨ x ∈ U₂) → x ∈ s.users := by
        intro x hx
        rw [hUs]
        rcases hx with h | h | h
        · exact List.mem_append.mpr (Or.inl h)
        · exact List.mem_append.mpr (Or.inr (h ▸ List.mem_cons_self _ _))
        · exact List.mem_append.mpr (Or.inr (List.mem_cons_of_mem _ h))
      have hUup : updateFirst (fun u => u.id == uh)
          (fun u => { u with books := u.books.filter (fun x => !(x == bh)) }) s.users =
          U₁ ++ { u0 with books := u0.books.filter (fun x => !(x == bh)) } :: U₂ := by
        rw [hUs]
        exact updateFirst_append_cons _ _ _ _ _ hU₁ hpu
      rw [hUup]
      refine ⟨⟨?_, ?_⟩, ?_⟩
      · have hmapU : (U₁ ++ { u0 with books := u0.books.filter (fun x => !(x == bh)) } :: U₂).map
            User.id = (U₁ ++ u0 :: U₂).map User.id := by simp
        rw [hmapU]; exact hUnodup
      · rw [hmapB]; exact hBnodup
      · intro b hbm u hum
        have hbcases : b ∈ B₁ ∨ b = { book with borrowerID := none } ∨ b ∈ B₂ := by
          rcases List.mem_append.mp hbm with h | h
          · exact Or.inl h
          · rcases List.mem_cons.mp h with h | h
            · exact Or.inr (Or.inl h)
            · exact Or.inr (Or.inr h)
        have hucases : u ∈ U₁ ∨
            u = { u0 with books := u0.books.filter (fun x => !(x == bh)) } ∨ u ∈ U₂ := by
          rcases List.mem_append.mp hum with h | h
          · exact Or.inl h
          · rcases List.mem_cons.mp h with h | h
            · exact Or.inr (Or.inl h)
            · exact Or.inr (Or.inr h)
        have oldU : ∀ v ∈ s.users, v.id ≠ uh →
            ∀ b', (b' ∈ B₁ ∨ b' = { book with borrowerID := none } ∨ b' ∈ B₂) →
            (b'.borrowerID = some v.id ↔ b'.id ∈ v.books) := by
          intro v hv hvne b' hb'
          rcases hb' with h | rfl | h
          · exact hs.2 b' (hmemB b' (Or.inl h)) v hv
          · show (none : Option Id) = some v.id ↔ book.id ∈ v.books
            have horig := hs.2 book (hmemB book (Or.inr (Or.inl rfl))) v hv
            rw [hbor] at horig
            constructor
            · intro hcon; exact absurd hcon (by simp)
            · intro hcon
              exact absurd (Option.some.inj (horig.mpr hcon)).symm hvne
          · exact hs.2 b' (hmemB b' (Or.inr (Or.inr h))) v hv
        rcases hucases with hu' | rfl | hu'
        · exact oldU u (hmemU u (Or.inl hu')) (hU₁ne u hu') b hbcases
        · have hu0S : u0 ∈ s.users := hmemU u0 (Or.inr (Or.inl rfl))
          rcases hbcases with hbo | rfl | hbo
          · show b.borrowerID = some u0.id ↔ b.id ∈ u0.books.filter (fun x => !(x == bh))
            have horig := hs.2 b (hmemB b (Or.inl hbo)) u0 hu0S
            rw [List.mem_filter]
            constructor
            · intro h
              refine ⟨horig.mp h, ?_⟩
              simp [beq_eq_false_iff_ne.mpr (hB₁ne b hbo)]
            · rintro ⟨h, -⟩
              exact horig.mpr h
          · show (none : Option Id) = some u0.id ↔
                book.id ∈ u0.books.filter (fun x => !(x == bh))
            rw [List.mem_filter]
            constructor
            · intro hcon; exact absurd hcon (by simp)
            · rintro ⟨-, hfoo⟩
              rw [hbid] at hfoo
              simp at hfoo
          · show b.borrowerID = some u0.id ↔ b.id ∈ u0.books.filter (fun x => !(x == bh))
            have horig := hs.2 b (hmemB b (Or.inr (Or.inr hbo))) u0 hu0S
            rw [List.mem_filter]
            constructor
            · intro h
              refine ⟨horig.mp h, ?_⟩
              simp [beq_eq_false_iff_ne.mpr (hB₂ne b hbo)]
            · rintro ⟨h, -⟩
              exact horig.mpr h
        · exact oldU u (hmemU u (Or.inr (Or.inr hu'))) (hU₂ne u hu') b hbcases

theorem consistent_step {s t : Store} (hs : Consistent s) (h : Step s t) :
    Consistent t := by
  cases h with
  | registerStep username password hashed newId hf =>
    exact consistent_register s username password hashed newId hs hf
  | addBookStep title newId hf => exact consistent_addBook s title newId hs hf
  | deleteUserStep idHex => exact consistent_deleteUser s idHex hs
  | borrowStep uh bh => exact consistent_borrow s uh bh hs
  | returnStep uh bh => exact consistent_return s uh bh hs

theorem consistent_reachable {s t : Store} (hs : Consistent s) (h : Reachable s t) :
    Consistent t := by
  induction h with
  | refl => exact hs
  | step hr hstep ih => exact consistent_step ih hstep

/-! ### C2: the relationship invariant holds in every reachable state -/

/-- C2: starting from any consistent store, every state reachable by
completing operations (register, add-book, delete-user, borrow, return)
satisfies the relationship invariant: a book's borrower field is present and
equal to a stored user's identifier iff the book's identifier appears in that
user's book list. -/
theorem reachable_inv (s t : Store) (hs : Consistent s) (h : Reachable s t) :
    Inv t :=
  (consistent_reachable hs h).2

/-- Witness for C2: from the empty store, register a user, add a book and
borrow it; the relationship invariant holds in the resulting state. -/
theorem reachable_inv_witness :
    Consistent (Store.mk [] []) ∧
    Inv (borrowBook ((addBook ((registerUser (Store.mk [] []) "alice" "pw" "h1"
      "aaaaaaaaaaaaaaaaaaaaaaaa").2.2) "Dune" "bbbbbbbbbbbbbbbbbbbbbbbb").2.2)
      "aaaaaaaaaaaaaaaaaaaaaaaa" "bbbbbbbbbbbbbbbbbbbbbbbb").2 :=
  ⟨by decide,
   reachable_inv (Store.mk [] []) _ (by decide)
     (Reachable.step
       (Reachable.step
         (Reachable.step (Reachable.refl _)
           (Step.registerStep _ "alice" "pw" "h1" "aaaaaaaaaaaaaaaaaaaaaaaa" (by decide)))
         (Step.addBookStep _ "Dune" "bbbbbbbbbbbbbbbbbbbbbbbb" (by decide)))
       (Step.borrowStep _ "aaaaaaaaaaaaaaaaaaaaaaaa" "bbbbbbbbbbbbbbbbbbbbbbbb"))⟩

/-! ### C6: the lending-limit size invariant -/

/-- Every stored user holds at most 2 books. -/
def LenInv (s : Store) : Prop := ∀ u ∈ s.users, u.books.length ≤ 2

instance (s : Store) : Decidable (LenInv s) := by unfold LenInv; exact inferInstance

theorem lenInv_register (s : Store) (username pw hashed : String) (newId : Id)
    (h : LenInv s) : LenInv (registerUser s username pw hashed newId).2.2 := by
  by_cases hc : s.users.any (fun v => v.username == username) = true
  · simpa [registerUser, hc] using h
  · intro u hu
    have heq : (registerUser s username pw hashed newId).2.2 =
        Store.mk (s.users ++ [User.mk newId username hashed []]) s.books := by
      simp [registerUser, hc]
    rw [heq] at hu
    rcases List.mem_append.mp hu with hu' | hu'
    · exact h u hu'
    · have hueq : u = User.mk newId username hashed [] := by simpa using hu'
      subst hueq
      simp

theorem lenInv_addBook (s : Store) (title : String) (newId : Id)
    (h : LenInv s) : LenInv (addBook s title newId).2.2 :=
  fun u hu => h u hu

theorem lenInv_deleteUser (s : Store) (idHex : String) (h : LenInv s) :
    LenInv (deleteUser s idHex).2 :=
  fun u hu => h u ((deleteUser_users_sublist s idHex).subset hu)

theorem lenInv_borrow (s : Store) (uh bh : String) (h : LenInv s) :
    LenInv (borrowBook s uh bh).2 := by
  rcases borrowBook_shape s uh bh with ⟨-, heq⟩ |
    ⟨-, user, book, hvu, hvb, hu, hb, hlen, hbor, heq⟩
  · rwa [heq]
  · rw [heq]
    obtain ⟨U₁, U₂, hUs, hU₁⟩ := find?_eq_some_split _ _ _ hu
    have hpu := List.find?_some hu
    have hUup : updateFirst (fun u => u.id == uh)
        (fun u => { u with books := u.books ++ [bh] }) s.users =
        U₁ ++ { user with books := user.books ++ [bh] } :: U₂ := by
      rw [hUs]
      exact updateFirst_append_cons _ _ _ _ _ hU₁ hpu
    intro u hum
    rw [show (Store.mk (updateFirst (fun u => u.id == uh)
        (fun u => { u with books := u.books ++ [bh] }) s.users)
        (updateFirst (fun b => b.id == bh)
          (fun b => { b with borrowerID := some uh }) s.books)).users =
        updateFirst (fun u => u.id == uh)
          (fun u => { u with books := u.books ++ [bh] }) s.users from rfl, hUup] at hum
    rcases List.mem_append.mp hum with h1 | h1
    · exact h u (by rw [hUs]; exact List.mem_append.mpr (Or.inl h1))
    · rcases List.mem_cons.mp h1 with h1 | h1
      · subst h1
        show (user.books ++ [bh]).length ≤ 2
        simp only [List.length_append, List.length_singleton]
        omega
      · exact h u
          (by rw [hUs]; exact List.mem_append.mpr (Or.inr (List.mem_cons_of_mem _ h1)))

theorem lenInv_return (s : Store) (uh bh : String) (h : LenInv s) :
    LenInv (returnBook s uh bh).2 := by
  rcases returnBook_shape s uh bh with ⟨-, heq⟩ | ⟨-, book, hvu, hvb, hb, hbor, heq⟩
  · rwa [heq]
  · rw [heq]
    intro u hum
    rcases mem_updateFirst _ _ _ _ hum with hum' | ⟨a, ha, hfa⟩
    · exact h u hum'
    · subst hfa
      show (a.books.filter (fun x => !(x == bh))).length ≤ 2
      exact le_trans (List.length_filter_le _ _) (h a ha)

theorem lenInv_step {s t : Store} (hs : LenInv s) (h : Step s t) : LenInv t := by
  cases h with
  | registerStep username password hashed newId hf =>
    exact lenInv_register s username password hashed newId hs
  | addBookStep title newId hf => exact lenInv_addBook s title newId hs
  | deleteUserStep idHex => exact lenInv_deleteUser s idHex hs
  | borrowStep uh bh => exact lenInv_borrow s uh bh hs
  | returnStep uh bh => exact lenInv_return s uh bh hs

/-- C6: in every state reachable from a store satisfying the size invariant
(register creates an empty list, borrow appends only after checking the list
has fewer than 2 entries, return only removes entries), every user's book
list has length between 0 and 2. -/
theorem reachable_lenInv (s t : Store) (hs : LenInv s) (h : Reachable s t) :
    LenInv t := by
  induction h with
  | refl => exact hs
  | step hr hstep ih => exact lenInv_step ih hstep

/-- Witness for C6: from the empty store, register a user, add two books and
borrow both; the resulting state still satisfies the size invariant. -/
theorem reachable_lenInv_witness :
    LenInv (Store.mk [] []) ∧
    LenInv (borrowBook ((borrowBook ((addBook ((addBook ((registerUser
      (Store.mk [] []) "bob" "pw" "h2" "11111111111111111111aaaa").2.2)
      "Dune" "22222222222222222222bbbb").2.2) "Solaris" "33333333333333333333cccc").2.2)
      "11111111111111111111aaaa" "22222222222222222222bbbb").2)
      "11111111111111111111aaaa" "33333333333333333333cccc").2 :=
  ⟨by decide,
   reachable_lenInv (Store.mk [] []) _ (by decide)
     (Reachable.step
       (Reachable.step
         (Reachable.step
           (Reachable.step
             (Reachable.step (Reachable.refl _)
               (Step.registerStep _ "bob" "pw" "h2" "11111111111111111111aaaa" (by decide)))
             (Step.addBookStep _ "Dune" "22222222222222222222bbbb" (by decide)))
           (Step.addBookStep _ "Solaris" "33333333333333333333cccc" (by decide)))
         (Step.borrowStep _ "11111111111111111111aaaa" "22222222222222222222bbbb"))
       (Step.borrowStep _ "11111111111111111111aaaa" "33333333333333333333cccc"))⟩

/-! ### C3: borrow followed by return restores the store -/

/-- C3: in any store satisfying the relationship invariant, whenever
borrow(u,b) succeeds, immediately performing return(u,b) also succeeds and
restores the store exactly — the book's borrower field is cleared back to
absent and b is removed from u's book list, giving a state identical to the
one before the borrow. -/
theorem borrow_return_roundtrip (s : Store) (uh bh : String) (hinv : Inv s)
    (hok : (borrowBook s uh bh).1 = .ok) :
    (returnBook (borrowBook s uh bh).2 uh bh).1 = .ok ∧
    (returnBook (borrowBook s uh bh).2 uh bh).2 = s := by
  rcases borrowBook_shape s uh bh with ⟨hne, -⟩ |
    ⟨-, user, book, hvu, hvb, hu, hb, hlen, hbor, heq⟩
  · exact absurd hok hne
  · rw [heq]
    obtain ⟨U₁, U₂, hUs, hU₁⟩ := find?_eq_some_split _ _ _ hu
    obtain ⟨B₁, B₂, hBs, hB₁⟩ := find?_eq_some_split _ _ _ hb
    have hpu := List.find?_some hu
    have hpb := List.find?_some hb
    have huid : user.id = uh := beq_iff_eq.mp hpu
    have hbid : book.id = bh := beq_iff_eq.mp hpb
    have husr : user ∈ s.users := by
      rw [hUs]; exact List.mem_append.mpr (Or.inr (List.mem_cons_self _ _))
    have hbk : book ∈ s.books := by
      rw [hBs]; exact List.mem_append.mpr (Or.inr (List.mem_cons_self _ _))
    have hbnotin : bh ∉ user.books := by
      have horig := hinv book hbk user husr
      rw [hbor] at horig
      intro hcon
      exact absurd (horig.mpr (by rw [hbid]; exact hcon)) (by simp)
    have hUup : updateFirst (fun u => u.id == uh)
        (fun u => { u with books := u.books ++ [bh] }) s.users =
        U₁ ++ { user with books := user.books ++ [bh] } :: U₂ := by
      rw [hUs]
      exact updateFirst_append_cons _ _ _ _ _ hU₁ hpu
    have hBup : updateFirst (fun b => b.id == bh)
        (fun b => { b with borrowerID := some uh }) s.books =
        B₁ ++ { book with borrowerID := some uh } :: B₂ := by
      rw [hBs]
      exact updateFirst_append_cons _ _ _ _ _ hB₁ hpb
    rw [hUup, hBup]
    have hfindB : (B₁ ++ { book with borrowerID := some uh } :: B₂).find?
        (fun b => b.id == bh) = some { book with borrowerID := some uh } :=
      find?_append_cons _ _ _ _ hB₁ hpb
    have hret : returnBook
        (Store.mk (U₁ ++ { user with books := user.books ++ [bh] } :: U₂)
          (B₁ ++ { book with borrowerID := some uh } :: B₂)) uh bh =
        (.ok, Store.mk
          (updateFirst (fun u => u.id == uh)
            (fun u => { u with books := u.books.filter (fun x => !(x == bh)) })
            (U₁ ++ { user with books := user.books ++ [bh] } :: U₂))
          (updateFirst (fun b => b.id == bh)
            (fun b => { b with borrowerID := none })
            (B₁ ++ { book with borrowerID := some uh } :: B₂))) := by
      simp [returnBook, objectIDFromHex, hvu, hvb, hfindB]
    rw [hret]
    refine ⟨rfl, ?_⟩
    have hba : (fun b => { b with borrowerID := none })
        ({ book with borrowerID := some uh }) = book := by
      show Book.mk book.id book.title none = book
      rw [← hbor]
    have hfilter : (user.books ++ [bh]).filter (fun x => !(x == bh)) = user.books := by
      rw [List.filter_append]
      have h1 : user.books.filter (fun x => !(x == bh)) = user.books :=
        List.filter_eq_self.mpr fun a ha => by
          have hne : a ≠ bh := fun he => hbnotin (he ▸ ha)
          simp [beq_eq_false_iff_ne.mpr hne]
      have h2 : ([bh].filter (fun x => !(x == bh))) = ([] : List Id) := by simp
      rw [h1, h2, List.append_nil]
    rw [updateFirst_append_cons (fun u => u.id == uh)
        (fun u => { u with books := u.books.filter (fun x => !(x == bh)) }) U₁ U₂
        ({ user with books := user.books ++ [bh] }) hU₁ hpu,
      updateFirst_append_cons (fun b => b.id == bh)
        (fun b => { b with borrowerID := none }) B₁ B₂
        ({ book with borrowerID := some uh }) hB₁ hpb]
    show Store.mk
        (U₁ ++ User.mk user.id user.username user.password
          ((user.books ++ [bh]).filter (fun x => !(x == bh))) :: U₂)
        (B₁ ++ Book.mk book.id book.title none :: B₂) = s
    rw [hfilter, ← hbor]
    show Store.mk (U₁ ++ user :: U₂) (B₁ ++ book :: B₂) = s
    rw [← hUs, ← hBs]

/-- Witness for C3: a consistent store with one user and one available book;
borrowing then returning gives back exactly the original store. -/
theorem borrow_return_roundtrip_witness :
    (returnBook (borrowBook (Store.mk
        [User.mk "9999999999999999999900aa" "carol" "h3" []]
        [Book.mk "9999999999999999999900bb" "Dune" none])
      "9999999999999999999900aa" "9999999999999999999900bb").2
      "9999999999999999999900aa" "9999999999999999999900bb").1 = .ok ∧
    (returnBook (borrowBook (Store.mk
        [User.mk "9999999999999999999900aa" "carol" "h3" []]
        [Book.mk "9999999999999999999900bb" "Dune" none])
      "9999999999999999999900aa" "9999999999999999999900bb").2
      "9999999999999999999900aa" "9999999999999999999900bb").2 =
    Store.mk [User.mk "9999999999999999999900aa" "carol" "h3" []]
      [Book.mk "9999999999999999999900bb" "Dune" none] :=
  borrow_return_roundtrip
    (Store.mk [User.mk "9999999999999999999900aa" "carol" "h3" []]
      [Book.mk "9999999999999999999900bb" "Dune" none])
    "9999999999999999999900aa" "9999999999999999999900bb" (by decide) (by decide)

end LibraryManagement
